import Mathlib

/-!
# Verification of the `garr` worker pool (`worker-pool/pool.go`) and its
retry/backoff collaborator boundary.

Shallow embedding of the Go source. Conventions:

* A Go channel of capacity 1 used as a queue (`taskQueue`) is a `List Task`
  together with the capacity bound `queueCap = 1`; a send is ready exactly
  when the buffer holds fewer than `queueCap` elements.
* A Go `select` over several cases is a function parametrised by the chosen
  branch; theorems carry the hypothesis that the chosen branch was ready
  (for the `default` branch of `TryDo`: that no other branch was ready),
  which is exactly the set of outcomes the Go scheduler can produce.
* A `context.Context` is its observable part for this code: whether its
  `Done` channel has fired, and the error `Err()` reports once it has.
* The single-slot future channel of a `Task` is the list of results ever
  sent to it, so "exactly one result is ever written" is a statement about
  the length of that list.
* `interface{}` result values are modelled by `Option Nat` (an arbitrary
  countable carrier; `none` is Go's `nil`), and `error` by `Option GoErr`.
* Interleaved executions of the expanded-worker counter protocol in `Do`
  and `expandedWorker` are modelled by the transition system `ExpStep`,
  whose atomic steps are exactly the atomic operations of the Go code.
-/

namespace WorkerPool

/-- Go `error` values that occur in this code: a context cancellation
error (`context.Canceled`), a context deadline error
(`context.DeadlineExceeded`), or an opaque error returned by a
caller-supplied executor. -/
inductive GoErr where
  | canceled
  | deadlineExceeded
  | userErr (code : Nat)
  deriving DecidableEq, Repr

/-- The observable part of a `context.Context`: whether `Done()` has fired,
and which error `Err()` returns once it has (Go guarantees `Err()` is
non-nil exactly when `Done` has fired). -/
structure Ctx where
  done : Bool
  errVal : GoErr
  deriving DecidableEq, Repr

/-- `ctx.Err()`: `nil` until `Done` fires, then the cancellation error. -/
def Ctx.err (c : Ctx) : Option GoErr :=
  if c.done then some c.errVal else none

/-- `TaskResult` from pool.go: `Result interface{}; Err error`. -/
structure TaskResult where
  result : Option Nat
  err : Option GoErr
  deriving DecidableEq, Repr

/-- `Task` from pool.go. `ctx` may be `none` (a nil `context.Context`,
filled in from the pool's context by `Do`/`TryDo`); `executor` may be
`none` (no function bound); `future` records every `TaskResult` ever sent
on the task's buffered channel `future` (capacity 1). -/
structure Task where
  ctx : Option Ctx
  executor : Option (Ctx → Option Nat × Option GoErr)
  future : List TaskResult

/-- `NewTask`: fresh task with an empty (never-written) future channel. -/
def NewTask (ctx : Option Ctx) (executor : Option (Ctx → Option Nat × Option GoErr)) : Task :=
  { ctx := ctx, executor := executor, future := [] }

/-- The context a running task observes; `Do`/`TryDo` guarantee `ctx` is
filled in before the task is queued, so the default is never reached on
queued tasks (a nil ctx at `Execute` time would be a nil dereference in Go). -/
def Task.effCtx (t : Task) : Ctx :=
  t.ctx.getD { done := false, errVal := GoErr.canceled }

/-- `Task.Execute`: run the executor if one is bound (zero values
`(nil, nil)` otherwise) and send the single result on the future. -/
def Task.Execute (t : Task) : Task :=
  let r : Option Nat × Option GoErr :=
    match t.executor with
    | some f => f t.effCtx
    | none => (none, none)
  { t with future := t.future ++ [{ result := r.1, err := r.2 }] }

/-- `Option` from pool.go (named `PoolOption` here because `Option` is taken
in Lean): worker-pool configuration. `expandedLifetime` is in nanoseconds,
as Go's `time.Duration`. -/
structure PoolOption where
  disableAutoStart : Bool
  numberWorker : Int
  expandableLimit : Int
  expandedLifetime : Int
  deriving DecidableEq, Repr

/-- Go's `time.Minute` in nanoseconds. -/
def timeMinute : Int := 60000000000

/-- `Option.normalize` from pool.go, with the package-level `numCPU`
(`runtime.NumCPU()`, cached at init) passed explicitly. The Go code updates
the three fields in place one after the other; each guard reads a field no
earlier update touches, so the original values appear in all three guards. -/
def PoolOption.normalize (numCPU : Int) (o : PoolOption) : PoolOption :=
  { o with
    numberWorker := if o.numberWorker ≤ 0 then numCPU else o.numberWorker,
    expandableLimit := if o.expandableLimit < 0 then 0 else o.expandableLimit,
    expandedLifetime := if o.expandedLifetime ≤ 0 then timeMinute else o.expandedLifetime }

/-- Capacity of the task queue: `make(chan *Task, 1)`. -/
def queueCap : Nat := 1

/-- `Pool` from pool.go. `state` is the three-state lifecycle flag
(0: not started, 1: started, 2: stopped); `expanded` the live
expanded-worker counter; `taskQueue` the buffered channel's contents.
The `sync.WaitGroup` and the `close` of the queue on `Stop` only govern
shutdown blocking and are not needed by the properties proved here. -/
structure Pool where
  ctx : Ctx
  opt : PoolOption
  taskQueue : List Task
  expanded : Int
  state : Nat

/-- `Pool.Start`: `CompareAndSwapUint32(&p.state, 0, 1)`; spawning of the
fixed workers happens only when the swap succeeds. -/
def Pool.Start (p : Pool) : Pool :=
  if p.state = 0 then { p with state := 1 } else p

/-- `Pool.Stop`: `CAS(&p.state, 1, 2) || CAS(&p.state, 0, 2)`; on success
the pool context is cancelled (then the queue is closed and the waitgroup
awaited, which have no effect on the state modelled here). -/
def Pool.Stop (p : Pool) : Pool :=
  if p.state = 1 ∨ p.state = 0 then
    { p with state := 2, ctx := { p.ctx with done := true } }
  else p

/-- A call into the pool lifecycle: `Start()` or `Stop()`. -/
inductive LifeOp where
  | start
  | stop
  deriving DecidableEq, Repr

/-- Effect of one lifecycle call on the pool. -/
def applyLifeOp (p : Pool) : LifeOp → Pool
  | LifeOp.start => p.Start
  | LifeOp.stop => p.Stop

/-- The sequence of lifecycle-flag values observed along a sequence of
`Start`/`Stop` calls, the initial value included. -/
def lifeTrace (p : Pool) : List LifeOp → List Nat
  | [] => [p.state]
  | op :: ops => p.state :: lifeTrace (applyLifeOp p op) ops

/-- Adjacent pairs of a list (the transitions of a trace). -/
def adjPairs : List Nat → List (Nat × Nat)
  | [] => []
  | [_] => []
  | a :: b :: rest => (a, b) :: adjPairs (b :: rest)

/-- The three cases of the `select` in `Pool.push` (and the first three of
`Pool.TryDo`): pool context done, task context done, queue send. -/
inductive PushBranch where
  | poolDone
  | taskDone
  | enqueue
  deriving DecidableEq, Repr

/-- Whether a `select` case of `push` is ready: a `<-ctx.Done()` receive is
ready when the context is cancelled, the queue send when the buffer has
room. The blocking `select` completes through some ready branch; which one
is the scheduler's choice, so theorems quantify over it. -/
def pushReady (p : Pool) (t : Task) : PushBranch → Bool
  | PushBranch.poolDone => p.ctx.done
  | PushBranch.taskDone => t.effCtx.done
  | PushBranch.enqueue => p.taskQueue.length < queueCap

/-- `Pool.push`: resolve through the chosen `select` branch — send the
corresponding cancellation error on the future without queuing, or enqueue
the task. Returns the updated pool and task. -/
def Pool.push (p : Pool) (t : Task) : PushBranch → Pool × Task
  | PushBranch.poolDone =>
      (p, { t with future := t.future ++ [{ result := none, err := p.ctx.err }] })
  | PushBranch.taskDone =>
      (p, { t with future := t.future ++ [{ result := none, err := t.effCtx.err }] })
  | PushBranch.enqueue =>
      ({ p with taskQueue := p.taskQueue ++ [t] }, t)

/-- Outcome of `Pool.Do` on a non-nil task: the updated pool and task, the
number of expanded-worker goroutines spawned by this call, whether the task
entered the queue through the non-blocking `select` of the expandable
branch, and whether the blocking `push` was performed. -/
structure DoOut where
  pool : Pool
  task : Task
  spawned : Nat
  viaTry : Bool
  pushed : Bool

/-- `Pool.Do` on a non-nil task, as executed without interference from
other threads (the interleaved counter protocol is `ExpStep` below):
fill in a nil task context from the pool context; if no expansion limit
is configured go straight to the blocking `push`; otherwise try a
non-blocking enqueue first and on queue-full run the increment /
limit-check / rollback protocol before the blocking `push`. -/
def Pool.doTask (p : Pool) (t0 : Task) (b : PushBranch) : DoOut :=
  let t := if t0.ctx = none then { t0 with ctx := some p.ctx } else t0
  if p.opt.expandableLimit = 0 then
    let (p', t') := p.push t b
    { pool := p', task := t', spawned := 0, viaTry := false, pushed := true }
  else
    if p.taskQueue.length < queueCap then
      { pool := { p with taskQueue := p.taskQueue ++ [t] }, task := t,
        spawned := 0, viaTry := true, pushed := false }
    else
      if p.expanded + 1 ≤ p.opt.expandableLimit then
        let p1 := { p with expanded := p.expanded + 1 }
        let (p', t') := p1.push t b
        { pool := p', task := t', spawned := 1, viaTry := false, pushed := true }
      else
        let (p', t') := p.push t b
        { pool := p', task := t', spawned := 0, viaTry := false, pushed := true }

/-- `Pool.Do`: nil-task guard around `doTask`; a nil task leaves the pool
untouched and no push/spawn happens. -/
def Pool.Do (p : Pool) (t : Option Task) (b : PushBranch) : DoOut :=
  match t with
  | none => { pool := p, task := NewTask none none, spawned := 0, viaTry := false, pushed := false }
  | some t => p.doTask t b

/-- The four cases of the `select` in `Pool.TryDo`: the three shared with
`push`, plus the `default` branch. -/
inductive TryBranch where
  | poolDone
  | taskDone
  | enqueue
  | dflt
  deriving DecidableEq, Repr

/-- A scheduler choice for the `TryDo` `select` is admissible when the
chosen case is ready; Go takes `default` exactly when no case is ready. -/
def tryAdmissible (p : Pool) (t : Task) : TryBranch → Prop
  | TryBranch.poolDone => pushReady p t PushBranch.poolDone = true
  | TryBranch.taskDone => pushReady p t PushBranch.taskDone = true
  | TryBranch.enqueue => pushReady p t PushBranch.enqueue = true
  | TryBranch.dflt =>
      pushReady p t PushBranch.poolDone = false ∧
      pushReady p t PushBranch.taskDone = false ∧
      pushReady p t PushBranch.enqueue = false

/-- `Pool.TryDo` on a non-nil task: the same three-way selection as `push`
plus a `default` branch that accepts nothing and changes nothing.
Returns `(pool, task, addedToQueue)`. -/
def Pool.tryDoTask (p : Pool) (t0 : Task) : TryBranch → Pool × Task × Bool :=
  let t := if t0.ctx = none then { t0 with ctx := some p.ctx } else t0
  fun b =>
    match b with
    | TryBranch.poolDone =>
        (p, { t with future := t.future ++ [{ result := none, err := p.ctx.err }] }, false)
    | TryBranch.taskDone =>
        (p, { t with future := t.future ++ [{ result := none, err := t.effCtx.err }] }, false)
    | TryBranch.enqueue =>
        ({ p with taskQueue := p.taskQueue ++ [t] }, t, true)
    | TryBranch.dflt => (p, t, false)

/-- `Pool.TryDo`: nil-task guard around `tryDoTask`; with a nil task the
select is skipped and the zero value `false` is returned. -/
def Pool.TryDo (p : Pool) (t : Option Task) (b : TryBranch) : Pool × Option Task × Bool :=
  match t with
  | none => (p, none, false)
  | some t =>
      let (p', t', ok) := p.tryDoTask t b
      (p', some t', ok)

/-- One iteration of the worker loop `for task := range p.taskQueue`
(shared by `worker` and the task-arrival case of `expandedWorker`):
dequeue the head of the queue, if any, and `Execute` it unconditionally. -/
def Pool.workerStep (p : Pool) : Pool × Option Task :=
  match p.taskQueue with
  | [] => (p, none)
  | t :: rest => ({ p with taskQueue := rest }, some t.Execute)

/-- Global state of the expanded-worker counting protocol, interleaved over
any number of submitter and worker threads. `counter` is the atomic
`p.expanded`; `live` the number of running expanded-worker goroutines;
`promised` the submitters past a successful limit check (`AddInt32` result
`≤ limit`) whose `go p.expandedWorker()` has not started yet; `rolling` the
submitters past a failed limit check whose `AddInt32(-1)` rollback is still
pending; `exiting` the expanded workers that have returned (no longer live)
but whose deferred `AddInt32(&p.expanded, -1)` has not run yet. -/
structure ExpState where
  counter : Int
  live : Nat
  promised : Nat
  rolling : Nat
  exiting : Nat
  deriving DecidableEq, Repr

/-- The initial state: no expanded workers, counter zero. -/
def ExpState.init : ExpState :=
  { counter := 0, live := 0, promised := 0, rolling := 0, exiting := 0 }

/-- Atomic steps of the expanded-worker protocol, for expansion limit `L`:
`incOk`/`incOver` are the `atomic.AddInt32(&p.expanded, 1)` in `Do` with the
limit check on its return value; `rollback` the compensating
`AddInt32(&p.expanded, -1)`; `spawn` the `go p.expandedWorker()`; `retire`
an expanded worker's loop returning; `decr` its deferred
`AddInt32(&p.expanded, -1)`. -/
inductive ExpStep (L : Int) : ExpState → ExpState → Prop where
  | incOk (s : ExpState) (h : s.counter + 1 ≤ L) :
      ExpStep L s { s with counter := s.counter + 1, promised := s.promised + 1 }
  | incOver (s : ExpState) (h : L < s.counter + 1) :
      ExpStep L s { s with counter := s.counter + 1, rolling := s.rolling + 1 }
  | rollback (s : ExpState) (h : 0 < s.rolling) :
      ExpStep L s { s with counter := s.counter - 1, rolling := s.rolling - 1 }
  | spawn (s : ExpState) (h : 0 < s.promised) :
      ExpStep L s { s with promised := s.promised - 1, live := s.live + 1 }
  | retire (s : ExpState) (h : 0 < s.live) :
      ExpStep L s { s with live := s.live - 1, exiting := s.exiting + 1 }
  | decr (s : ExpState) (h : 0 < s.exiting) :
      ExpStep L s { s with counter := s.counter - 1, exiting := s.exiting - 1 }

/-- States reachable from the initial state by any interleaving. -/
def ExpReachable (L : Int) : ExpState → Prop :=
  Relation.ReflTransGen (ExpStep L) ExpState.init

/-- The inductive invariant of the protocol: the counter accounts exactly
for live, promised, rolling-back and exiting threads, and every thread
counted in `live + promised` passed a successful `≤ L` check. -/
def ExpInv (L : Int) (s : ExpState) : Prop :=
  s.counter = (s.live : Int) + s.promised + s.rolling + s.exiting ∧
  (s.live : Int) + s.promised ≤ L

/-- Spec-modelled from the spec (§6) and `retry/attemptLimitingBackoff_test.go`:
the retry/backoff strategy family itself (`NewFixedBackoff`,
`NewAttemptLimitingBackoff`, `NextDelayMillis`) is not under `src/`, only
its test is. A strategy computes a delay from a zero-based attempt index;
the attempt-limiting decorator wraps an inner strategy and forces the
negative sentinel once the limit is reached. -/
inductive Backoff where
  | fixed (delayMillis : Int)
  | attemptLimiting (inner : Backoff) (limit : Int)
  deriving DecidableEq, Repr

/-- Spec-modelled from the spec: `NextDelayMillis(attemptIndex)` returns a
non-negative delay for the given zero-based attempt index, or the sentinel
`-1` once retries are exhausted. -/
def NextDelayMillis : Backoff → Int → Int
  | Backoff.fixed d, _ => d
  | Backoff.attemptLimiting inner limit, i =>
      if i < limit then NextDelayMillis inner i else -1

/-- Spec-modelled from the spec: `NewFixedBackoff` constructs a fixed-delay
strategy; a negative delay is rejected (a strategy must return non-negative
delays before exhaustion), `none` standing for a returned error. -/
def NewFixedBackoff (delayMillis : Int) : Option Backoff :=
  if delayMillis < 0 then none else some (Backoff.fixed delayMillis)

/-- Spec-modelled from the spec: `NewAttemptLimitingBackoff` must reject
invalid construction parameters (nil inner strategy, non-positive attempt
limit) with an error at construction time; `none` stands for a returned
error, `inner = none` for a nil inner strategy. -/
def NewAttemptLimitingBackoff (inner : Option Backoff) (limit : Int) : Option Backoff :=
  match inner with
  | none => none
  | some b => if limit ≤ 0 then none else some (Backoff.attemptLimiting b limit)

/-! ## Concrete fixtures used by witnesses and counterexamples. -/

/-- A context that has not been cancelled. -/
def idleCtx : Ctx := { done := false, errVal := GoErr.canceled }

/-- A context that has been cancelled. -/
def cancelledCtx : Ctx := { done := true, errVal := GoErr.canceled }

/-- A plain configuration: one worker, no expansion. -/
def baseOpt : PoolOption :=
  { disableAutoStart := false, numberWorker := 1, expandableLimit := 0,
    expandedLifetime := timeMinute }

/-- A freshly constructed, not yet started pool. -/
def samplePool : Pool :=
  { ctx := idleCtx, opt := baseOpt, taskQueue := [], expanded := 0, state := 0 }

/-- A pool that has been stopped. -/
def stoppedPool : Pool := { samplePool with state := 2 }

/-- A task with no executor bound, carrying an uncancelled context. -/
def busyTask : Task := NewTask (some idleCtx) none

/-- Another task with no executor bound and an uncancelled context. -/
def freshTask : Task := NewTask (some idleCtx) none

/-- A started pool whose capacity-1 queue already holds a task. -/
def fullPool : Pool := { samplePool with state := 1, taskQueue := [busyTask] }

/-- The full pool with expansion limit 2 configured. -/
def expandPool : Pool := { fullPool with opt := { baseOpt with expandableLimit := 2 } }

/-- A queued task whose own scope has been cancelled and whose executor
returns `(7, nil)`, recording that it ran. -/
def cancelledQueuedTask : Task :=
  { ctx := some cancelledCtx, executor := some fun _ => (some 7, none), future := [] }

/-- A started, uncancelled pool whose queue holds `cancelledQueuedTask`. -/
def poolWithCancelledQueued : Pool :=
  { samplePool with state := 1, taskQueue := [cancelledQueuedTask] }

/-- A started pool whose own scope has been cancelled. -/
def cancelledPool : Pool := { samplePool with ctx := cancelledCtx, state := 1 }

/-! ## Theorems for the claims. -/

/-- C7: configuration normalization replaces a zero or negative
number-of-workers by the host CPU parallelism, a negative expansion limit
by 0 (expansion disabled), and a zero or negative expansion idle-lifetime
by one minute; valid positive values (and the auto-start flag) are kept
unchanged. -/
theorem normalize_replaces_invalid_with_defaults (n : Int) (o : PoolOption) :
    (o.numberWorker ≤ 0 → (o.normalize n).numberWorker = n) ∧
    (0 < o.numberWorker → (o.normalize n).numberWorker = o.numberWorker) ∧
    (o.expandableLimit < 0 → (o.normalize n).expandableLimit = 0) ∧
    (0 ≤ o.expandableLimit → (o.normalize n).expandableLimit = o.expandableLimit) ∧
    (o.expandedLifetime ≤ 0 → (o.normalize n).expandedLifetime = timeMinute) ∧
    (0 < o.expandedLifetime → (o.normalize n).expandedLifetime = o.expandedLifetime) ∧
    (o.normalize n).disableAutoStart = o.disableAutoStart := by
  refine ⟨fun h => ?_, fun h => ?_, fun h => ?_, fun h => ?_, fun h => ?_, fun h => ?_, ?_⟩ <;>
    dsimp only [PoolOption.normalize] <;> split_ifs <;> first | rfl | omega

/-- Witness for C7 at concrete configurations: one with every field
invalid, one with every field valid. -/
theorem normalize_replaces_invalid_with_defaults_witness :
    (PoolOption.normalize 8 ⟨false, 0, -5, -1⟩).numberWorker = 8 ∧
    (PoolOption.normalize 8 ⟨false, 0, -5, -1⟩).expandableLimit = 0 ∧
    (PoolOption.normalize 8 ⟨false, 0, -5, -1⟩).expandedLifetime = timeMinute ∧
    (PoolOption.normalize 8 ⟨false, 4, 2, 500⟩).numberWorker = 4 ∧
    (PoolOption.normalize 8 ⟨false, 4, 2, 500⟩).expandableLimit = 2 ∧
    (PoolOption.normalize 8 ⟨false, 4, 2, 500⟩).expandedLifetime = 500 := by
  have h1 := normalize_replaces_invalid_with_defaults 8 ⟨false, 0, -5, -1⟩
  have h2 := normalize_replaces_invalid_with_defaults 8 ⟨false, 4, 2, 500⟩
  exact ⟨h1.1 (by decide), h1.2.2.1 (by decide), h1.2.2.2.2.1 (by decide),
    h2.2.1 (by decide), h2.2.2.2.1 (by decide), h2.2.2.2.2.2.1 (by decide)⟩

/-- C8: executing a Task whose execution function is nil writes the single
result `(nil, nil)` to its future — both the result value and the error
field are nil, a deliberate no-op rather than an error. -/
theorem execute_nil_executor_yields_nil_nil (t : Task) (h : t.executor = none) :
    t.Execute.future = t.future ++ [{ result := none, err := none }] := by
  simp [Task.Execute, h]

/-- Witness for C8: a concrete task with no executor bound. -/
theorem execute_nil_executor_yields_nil_nil_witness :
    busyTask.Execute.future = [{ result := none, err := none }] := by
  have h := execute_nil_executor_yields_nil_nil busyTask rfl
  simpa [busyTask, NewTask] using h

/-- C9: constructing an attempt-limiting backoff rejects a nil inner
strategy and a non-positive attempt limit at construction time; a
fixed-delay strategy of 123ms wrapped with limit 3 yields 123 for attempt
indices 0, 1, 2 and the negative sentinel for every index at least 3. -/
theorem attemptLimitingBackoff_construction_and_delays :
    NewAttemptLimitingBackoff none 1 = none ∧
    NewAttemptLimitingBackoff (NewFixedBackoff 123) 0 = none ∧
    NewAttemptLimitingBackoff (NewFixedBackoff 123) 3
      = some (Backoff.attemptLimiting (Backoff.fixed 123) 3) ∧
    (∀ i : Int, 0 ≤ i → i < 3 →
      NextDelayMillis (Backoff.attemptLimiting (Backoff.fixed 123) 3) i = 123) ∧
    (∀ i : Int, 3 ≤ i →
      NextDelayMillis (Backoff.attemptLimiting (Backoff.fixed 123) 3) i = -1) := by
  refine ⟨rfl, rfl, rfl, fun i h0 h3 => ?_, fun i h3 => ?_⟩
  · simp [NextDelayMillis, h3]
  · simp [NextDelayMillis]
    omega

/-- Witness for C9 at concrete attempt indices 1 and 7. -/
theorem attemptLimitingBackoff_construction_and_delays_witness :
    NextDelayMillis (Backoff.attemptLimiting (Backoff.fixed 123) 3) 1 = 123 ∧
    NextDelayMillis (Backoff.attemptLimiting (Backoff.fixed 123) 3) 7 = -1 := by
  have h := attemptLimitingBackoff_construction_and_delays
  exact ⟨h.2.2.2.1 1 (by decide) (by decide), h.2.2.2.2 7 (by decide)⟩

/-- C10: calling Do or TryDo with a nil Task is a safe no-op: the pool
(queue contents, expanded-worker counter, lifecycle flag) is unchanged,
nothing is enqueued, no worker is spawned, no push happens, and TryDo
returns false. -/
theorem nil_task_submission_noop (p : Pool) (b : PushBranch) (c : TryBranch) :
    (p.Do none b).pool = p ∧
    (p.Do none b).spawned = 0 ∧
    (p.Do none b).viaTry = false ∧
    (p.Do none b).pushed = false ∧
    p.TryDo none c = (p, none, false) := by
  exact ⟨rfl, rfl, rfl, rfl, rfl⟩

/-- Transitions the lifecycle flag may ever take, stutters included:
forward along 0 → 1 → 2 or 0 → 2, never backward. -/
def allowedTransitions : List (Nat × Nat) :=
  [(0, 0), (0, 1), (0, 2), (1, 1), (1, 2), (2, 2)]

/-- A trace starting at `a` and continuing with a pool's trace decomposes
into the first transition and the rest. -/
theorem adjPairs_cons_trace (a : Nat) (p : Pool) (ops : List LifeOp) :
    adjPairs (a :: lifeTrace p ops) = (a, p.state) :: adjPairs (lifeTrace p ops) := by
  cases ops <;> rfl

/-- One Start/Stop call never moves the lifecycle flag backward. -/
theorem state_le_applyLifeOp (p : Pool) (op : LifeOp) :
    p.state ≤ (applyLifeOp p op).state := by
  cases op <;> simp only [applyLifeOp, Pool.Start, Pool.Stop] <;> split_ifs <;>
    (try dsimp only) <;> omega

/-- One Start/Stop call keeps the lifecycle flag in {0, 1, 2}. -/
theorem state_applyLifeOp_le_two (p : Pool) (op : LifeOp) (h : p.state ≤ 2) :
    (applyLifeOp p op).state ≤ 2 := by
  cases op <;> simp only [applyLifeOp, Pool.Start, Pool.Stop] <;> split_ifs <;>
    (try dsimp only) <;> omega

/-- One Start/Stop call takes the lifecycle flag along an allowed
transition. -/
theorem step_pair_allowed (p : Pool) (op : LifeOp) (h : p.state ≤ 2) :
    (p.state, (applyLifeOp p op).state) ∈ allowedTransitions := by
  have h3 : p.state = 0 ∨ p.state = 1 ∨ p.state = 2 := by omega
  rcases h3 with hs | hs | hs <;> cases op <;>
    simp [applyLifeOp, Pool.Start, Pool.Stop, allowedTransitions, hs]

/-- A lifecycle trace always starts at the pool's current flag value. -/
theorem lifeTrace_head (p : Pool) (ops : List LifeOp) :
    ∃ rest, lifeTrace p ops = p.state :: rest := by
  cases ops <;> exact ⟨_, rfl⟩

/-- The lifecycle trace is monotone non-decreasing. -/
theorem lifeTrace_chain (p : Pool) (ops : List LifeOp) :
    List.Chain' (· ≤ ·) (lifeTrace p ops) := by
  induction ops generalizing p with
  | nil => simp [lifeTrace]
  | cons op ops ih =>
      rw [lifeTrace]
      obtain ⟨rest, hrest⟩ := lifeTrace_head (applyLifeOp p op) ops
      rw [hrest]
      refine List.chain'_cons.mpr ⟨?_, ?_⟩
      · exact state_le_applyLifeOp p op
      · rw [← hrest]
        exact ih (applyLifeOp p op)

/-- In a monotone trace whose head exceeds `a`, the pair `(a, b)` occurs
in no adjacent position. -/
theorem pair_not_mem_adjPairs (a b : Nat) :
    ∀ (l : List Nat) (v : Nat), List.Chain' (· ≤ ·) (v :: l) → a < v →
      (a, b) ∉ adjPairs (v :: l)
  | [], _, _, _ => by simp [adjPairs]
  | y :: rest, v, hch, hav => by
      rw [List.chain'_cons] at hch
      intro hmem
      have hmem' : (a, b) ∈ ((v, y) :: adjPairs (y :: rest) : List (Nat × Nat)) := hmem
      rcases List.mem_cons.mp hmem' with heq | hmem2
      · injection heq with h1 h2
        omega
      · exact pair_not_mem_adjPairs a b rest y hch.2 (lt_of_lt_of_le hav hch.1) hmem2

/-- In a monotone trace, each strictly increasing transition occurs at
most once. -/
theorem count_adjPairs_le_one (a b : Nat) (hab : a < b) :
    ∀ l : List Nat, List.Chain' (· ≤ ·) l → (adjPairs l).count (a, b) ≤ 1
  | [], _ => by simp [adjPairs]
  | [_], _ => by simp [adjPairs]
  | x :: y :: rest, hch => by
      rw [List.chain'_cons] at hch
      show (((x, y) :: adjPairs (y :: rest)).count (a, b)) ≤ 1
      by_cases hxy : ((x, y) : Nat × Nat) = (a, b)
      · have hy : y = b := congrArg Prod.snd hxy
        have hnone : (a, b) ∉ adjPairs (y :: rest) :=
          pair_not_mem_adjPairs a b rest y hch.2 (hy ▸ hab)
        have hz : (adjPairs (y :: rest)).count (a, b) = 0 :=
          List.count_eq_zero.mpr hnone
        rw [hxy, List.count_cons_self, hz]
      · have hne : ((a, b) : Nat × Nat) ≠ (x, y) := fun hc => hxy hc.symm
        rw [List.count_cons_of_ne hne]
        exact count_adjPairs_le_one a b hab (y :: rest) hch.2

/-- C3: along every sequence of Start/Stop calls on a fresh pool the
lifecycle flag moves only forward along 0 → 1 → 2 or directly 0 → 2, never
backward; each strict transition fires at most once; Start is a no-op on a
started or stopped pool, and Stop is a no-op on a stopped pool (so a second
Stop has no effect). -/
theorem lifecycle_flag_monotone (p : Pool) (ops : List LifeOp) (h0 : p.state = 0) :
    (∀ pr ∈ adjPairs (lifeTrace p ops), pr ∈ allowedTransitions) ∧
    (∀ a b : Nat, a < b → (adjPairs (lifeTrace p ops)).count (a, b) ≤ 1) ∧
    (∀ q : Pool, q.state ≠ 0 → q.Start = q) ∧
    (∀ q : Pool, q.state = 2 → q.Stop = q) := by
  refine ⟨?_, ?_, ?_, ?_⟩
  · have hb : p.state ≤ 2 := by omega
    clear h0
    induction ops generalizing p with
    | nil => simp [lifeTrace, adjPairs]
    | cons op ops ih =>
        rw [lifeTrace, adjPairs_cons_trace]
        intro pr hpr
        rcases List.mem_cons.mp hpr with heq | hmem
        · exact heq ▸ step_pair_allowed p op hb
        · exact ih (applyLifeOp p op) (state_applyLifeOp_le_two p op hb) pr hmem
  · intro a b hab
    exact count_adjPairs_le_one a b hab _ (lifeTrace_chain p ops)
  · intro q hq
    simp [Pool.Start, hq]
  · intro q hq
    simp [Pool.Stop, hq]

/-- Witness for C3: a fresh pool taken through Start then Stop, and a
stopped pool's second Stop. -/
theorem lifecycle_flag_monotone_witness :
    ((0, 1) ∈ allowedTransitions →
      (adjPairs (lifeTrace samplePool [LifeOp.start, LifeOp.stop])).count (0, 1) ≤ 1) ∧
    stoppedPool.Stop = stoppedPool := by
  have h := lifecycle_flag_monotone samplePool [LifeOp.start, LifeOp.stop] rfl
  exact ⟨fun _ => h.2.1 0 1 (by decide), h.2.2.2 stoppedPool rfl⟩

/-- C1 fails as stated: a non-blocking submission on a saturated,
uncancelled, non-expandable pool must take the `default` branch; the task
is not accepted, nothing is enqueued (the queue still holds only the task
that was already there), and no result is ever written to its future —
zero writes, not exactly one. -/
theorem tryDo_rejected_future_never_written :
    tryAdmissible fullPool freshTask TryBranch.dflt ∧
    (fullPool.tryDoTask freshTask TryBranch.dflt).2.2 = false ∧
    (fullPool.tryDoTask freshTask TryBranch.dflt).2.1.future = [] ∧
    (fullPool.tryDoTask freshTask TryBranch.dflt).1.taskQueue.length = 1 := by
  exact ⟨⟨rfl, rfl, rfl⟩, rfl, rfl, rfl⟩

/-- C1 (amended): every submission writes at most one result to the task's
future, and exactly one except a rejected non-blocking submission, which
writes none: a blocking `push` resolving through a cancellation branch
writes one and does not enqueue, and resolving through the queue branch
writes none and enqueues; `Do` behaves likewise on all its dispatch paths;
`TryDo` behaves likewise on its three shared branches and writes none
without enqueuing on the `default` branch; a worker executing a dequeued
task writes exactly one. The count `future length + 1 if enqueued`
is the total ever written, since each enqueued task is executed once. -/
theorem submission_writes_at_most_one_result (p : Pool) (t : Task) (b : PushBranch)
    (c : TryBranch) :
    ((p.push t b).2.future.length + (if b = PushBranch.enqueue then 1 else 0)
        = t.future.length + 1) ∧
    ((p.doTask t b).task.future.length
        + (if (p.doTask t b).viaTry ∨ (b = PushBranch.enqueue ∧ (p.doTask t b).pushed)
            then 1 else 0)
        = t.future.length + 1) ∧
    ((p.tryDoTask t c).2.1.future.length + (if (p.tryDoTask t c).2.2 then 1 else 0)
        = t.future.length + (if c = TryBranch.dflt then 0 else 1)) ∧
    t.Execute.future.length = t.future.length + 1 := by
  refine ⟨?_, ?_, ?_, ?_⟩
  · cases b <;> simp [Pool.push]
  · cases b <;> simp [Pool.doTask, Pool.push] <;> split_ifs <;> simp_all
  · cases c <;> simp [Pool.tryDoTask] <;> split_ifs <;> simp_all
  · simp only [Task.Execute]
    cases t.executor <;> simp

/-- C2 fails as stated: a task sitting in the queue whose own scope has
been cancelled (cancelled while queued, not yet executing) is still handed
to the worker that dequeues it, its execution function IS invoked (the
future carries the executor's value 7), and the future does not resolve
with the cancellation error. -/
theorem queued_task_executed_despite_cancelled_scope :
    cancelledQueuedTask.effCtx.done = true ∧
    poolWithCancelledQueued.workerStep.2.map Task.future
        = some [{ result := some 7, err := none }] ∧
    poolWithCancelledQueued.workerStep.2.map Task.future
        ≠ some [{ result := none, err := some GoErr.canceled }] := by
  refine ⟨rfl, rfl, ?_⟩
  decide

/-- C2 (amended): cancellation of the pool scope or the task scope
short-circuits a task only while it is awaiting admission to the queue:
whenever the blocking push resolves through a cancellation branch, the
future resolves with that scope's cancellation error, the task is not
enqueued (never handed to a worker), and no push path ever touches the
execution function. A task already accepted into the queue is executed by
the dequeuing worker even if its scope is cancelled meanwhile. -/
theorem push_cancellation_short_circuit (p : Pool) (t : Task) :
    (pushReady p t PushBranch.poolDone = true →
      (p.push t PushBranch.poolDone).2.future
          = t.future ++ [{ result := none, err := some p.ctx.errVal }] ∧
      (p.push t PushBranch.poolDone).1.taskQueue = p.taskQueue) ∧
    (pushReady p t PushBranch.taskDone = true →
      (p.push t PushBranch.taskDone).2.future
          = t.future ++ [{ result := none, err := some t.effCtx.errVal }] ∧
      (p.push t PushBranch.taskDone).1.taskQueue = p.taskQueue) ∧
    (∀ b : PushBranch, (p.push t b).2.executor = t.executor) := by
  refine ⟨fun h => ?_, fun h => ?_, fun b => ?_⟩
  · have hd : p.ctx.done = true := h
    exact ⟨by simp [Pool.push, Ctx.err, hd], rfl⟩
  · have hd : t.effCtx.done = true := h
    exact ⟨by simp [Pool.push, Ctx.err, hd], rfl⟩
  · cases b <;> rfl

/-- Witness for C2 (amended): pushing onto a cancelled pool resolves the
future with the cancellation error and enqueues nothing. -/
theorem push_cancellation_short_circuit_witness :
    (cancelledPool.push freshTask PushBranch.poolDone).2.future
        = [{ result := none, err := some GoErr.canceled }] ∧
    (cancelledPool.push freshTask PushBranch.poolDone).1.taskQueue.length = 0 := by
  have h := (push_cancellation_short_circuit cancelledPool freshTask).1 rfl
  refine ⟨?_, ?_⟩
  · rw [h.1]
    rfl
  · rw [h.2]
    rfl

/-- C4: on a blocking submission to a pool with a configured (non-zero)
expansion limit, dispatch first attempts a non-blocking enqueue; with queue
space the task is enqueued directly with no spawn and no blocking wait; on
queue-full the expanded counter is incremented and, within the limit,
exactly one expanded worker is spawned and the task goes through the
blocking three-way `push`; beyond the limit the increment is rolled back
(counter back to its prior value) and the task still goes through the same
blocking three-way `push` rather than being rejected. -/
theorem do_expandable_dispatch (p : Pool) (t : Task) (b : PushBranch)
    (hL : p.opt.expandableLimit ≠ 0) :
    (p.taskQueue.length < queueCap →
      (p.doTask t b).viaTry = true ∧ (p.doTask t b).pushed = false ∧
      (p.doTask t b).spawned = 0 ∧
      (p.doTask t b).pool.expanded = p.expanded ∧
      (p.doTask t b).pool.taskQueue
          = p.taskQueue ++ [if t.ctx = none then { t with ctx := some p.ctx } else t]) ∧
    (queueCap ≤ p.taskQueue.length → p.expanded + 1 ≤ p.opt.expandableLimit →
      (p.doTask t b).spawned = 1 ∧ (p.doTask t b).pushed = true ∧
      (p.doTask t b).pool.expanded = p.expanded + 1 ∧
      p.doTask t b
          = (let t1 := if t.ctx = none then { t with ctx := some p.ctx } else t
             let pr := Pool.push { p with expanded := p.expanded + 1 } t1 b
             { pool := pr.1, task := pr.2, spawned := 1, viaTry := false, pushed := true })) ∧
    (queueCap ≤ p.taskQueue.length → p.opt.expandableLimit < p.expanded + 1 →
      (p.doTask t b).spawned = 0 ∧ (p.doTask t b).pushed = true ∧
      (p.doTask t b).pool.expanded = p.expanded ∧
      p.doTask t b
          = (let t1 := if t.ctx = none then { t with ctx := some p.ctx } else t
             let pr := Pool.push p t1 b
             { pool := pr.1, task := pr.2, spawned := 0, viaTry := false, pushed := true })) := by
  refine ⟨fun hq => ?_, fun hq hlim => ?_, fun hq hlim => ?_⟩
  · simp only [Pool.doTask, if_neg hL, if_pos hq]
    refine ⟨?_, ?_, ?_, ?_, ?_⟩ <;> trivial
  · have hq' : ¬p.taskQueue.length < queueCap := by omega
    simp only [Pool.doTask, if_neg hL, if_neg hq', if_pos hlim]
    refine ⟨?_, ?_, ?_, ?_⟩ <;> first | trivial | rfl | (cases b <;> rfl)
  · have hq' : ¬p.taskQueue.length < queueCap := by omega
    have hlim' : ¬p.expanded + 1 ≤ p.opt.expandableLimit := by omega
    simp only [Pool.doTask, if_neg hL, if_neg hq', if_neg hlim']
    refine ⟨?_, ?_, ?_, ?_⟩ <;> first | trivial | rfl | (cases b <;> rfl)

/-- Witness for C4: a full expandable pool (limit 2, none live) spawns one
worker and increments the counter; the same pool with the counter already
at the limit rolls back and still pushes. -/
theorem do_expandable_dispatch_witness :
    (expandPool.doTask freshTask PushBranch.enqueue).spawned = 1 ∧
    (expandPool.doTask freshTask PushBranch.enqueue).pool.expanded = 1 ∧
    ({ expandPool with expanded := 2 }.doTask freshTask PushBranch.enqueue).spawned = 0 ∧
    ({ expandPool with expanded := 2 }.doTask freshTask PushBranch.enqueue).pushed = true := by
  have h1 := (do_expandable_dispatch expandPool freshTask PushBranch.enqueue
    (by decide)).2.1 (by decide) (by decide)
  have h2 := (do_expandable_dispatch { expandPool with expanded := 2 } freshTask
    PushBranch.enqueue (by decide)).2.2 (by decide) (by decide)
  exact ⟨h1.1, h1.2.2.1, h2.1, h2.2.1⟩

/-- The invariant holds in the initial state (for a non-negative limit, as
`normalize` guarantees). -/
theorem expInv_init (L : Int) (hL : 0 ≤ L) : ExpInv L ExpState.init :=
  ⟨by simp [ExpState.init], by simpa [ExpState.init] using hL⟩

/-- Every atomic step of the expanded-worker protocol preserves the
invariant: `incOk` is guarded by the post-increment value being within the
limit, and every other step only moves a thread between phases or
decreases the accounted total. -/
theorem expInv_step (L : Int) (s s' : ExpState) (hst : ExpStep L s s') (hs : ExpInv L s) :
    ExpInv L s' := by
  obtain ⟨hsum, hle⟩ := hs
  cases hst <;> refine ⟨?_, ?_⟩ <;> dsimp only <;> omega

/-- C5: in every state reachable by any interleaving of submissions
(increment, limit check, spawn or rollback) and expanded-worker exits, the
number of live expanded workers never exceeds the configured expansion
limit. -/
theorem expanded_workers_le_limit (L : Int) (hL : 0 ≤ L) (s : ExpState)
    (hs : ExpReachable L s) : (s.live : Int) ≤ L := by
  have hinv : ExpInv L s := by
    induction hs with
    | refl => exact expInv_init L hL
    | tail _ hbc ih => exact expInv_step L _ _ hbc ih
  obtain ⟨-, hle⟩ := hinv
  omega

/-- The protocol state after one within-limit increment, spawn pending. -/
def expOnePromised : ExpState :=
  { counter := 1, live := 0, promised := 1, rolling := 0, exiting := 0 }

/-- The protocol state after that spawn: one live expanded worker. -/
def expOneLive : ExpState :=
  { counter := 1, live := 1, promised := 0, rolling := 0, exiting := 0 }

/-- Witness for C5: with limit 1, after an increment within the limit and
the spawn it pays for, exactly one worker is live — not more than 1. -/
theorem expanded_workers_le_limit_witness : (expOneLive.live : Int) ≤ 1 := by
  refine expanded_workers_le_limit 1 (by decide) expOneLive ?_
  refine Relation.ReflTransGen.tail (Relation.ReflTransGen.tail
    Relation.ReflTransGen.refl (ExpStep.incOk ExpState.init (by decide))) ?_
  exact ExpStep.spawn expOnePromised (by decide)

/-- Inclusion of the blocking three-way branches into the `TryDo` branches. -/
def liftBranch : PushBranch → TryBranch
  | PushBranch.poolDone => TryBranch.poolDone
  | PushBranch.taskDone => TryBranch.taskDone
  | PushBranch.enqueue => TryBranch.enqueue

/-- C6: a non-blocking submission performs the same three-way selection as
the blocking path — on each shared branch it produces the very pool and
task `push` would, and accepts exactly on the queue branch — and when none
of the three conditions is ready (in particular on a saturated pool) the
`default` branch returns "not accepted" immediately, changing nothing. -/
theorem tryDo_three_way_selection_with_default (p : Pool) (t : Task) :
    (∀ b : PushBranch,
      (p.tryDoTask t (liftBranch b)).1
          = (p.push (if t.ctx = none then { t with ctx := some p.ctx } else t) b).1 ∧
      (p.tryDoTask t (liftBranch b)).2.1
          = (p.push (if t.ctx = none then { t with ctx := some p.ctx } else t) b).2 ∧
      ((p.tryDoTask t (liftBranch b)).2.2 = true ↔ b = PushBranch.enqueue)) ∧
    (tryAdmissible p t TryBranch.dflt →
      p.tryDoTask t TryBranch.dflt
          = (p, if t.ctx = none then { t with ctx := some p.ctx } else t, false)) := by
  refine ⟨fun b => ?_, fun _ => rfl⟩
  cases b <;> exact ⟨rfl, rfl, by simp [liftBranch, Pool.tryDoTask]⟩

/-- Witness for C6: on the saturated, uncancelled, non-expandable pool the
default branch is admissible and the submission is not accepted. -/
theorem tryDo_three_way_selection_with_default_witness :
    (fullPool.tryDoTask busyTask TryBranch.dflt).2.2 = false := by
  have h := (tryDo_three_way_selection_with_default fullPool busyTask).2 ⟨rfl, rfl, rfl⟩
  rw [h]

end WorkerPool
